import Mathlib

/-
Verification development for the race-simulation engine in src/index.tsx.

The engine is shallowly embedded over the reals: JavaScript numbers are
modelled as elements of ℝ, `Math.pow(x, 1.5)` as `Real.rpow`, `Math.random()`
as an explicit per-car random input, and the `%=` operator on nonnegative
operands as `a - b * ⌊a / b⌋`.  The per-tick `for (const car of this.cars)`
loop of `RacingGame.simulateStage` is embedded as a fold over the index-paired
car list, and the surrounding `while (!winner && !this.isFinished)` loop as a
recursion over the list of per-tick random sources (one entry per executed
tick), guarded exactly by the loop condition.
-/

namespace Racing

/-- Mutable car state (src/index.tsx, class Car, lines 110-134). -/
structure Car where
  name : String
  speed : ℝ
  handling : ℝ
  color : String
  position : ℝ
  currentLap : ℕ
  damage : ℝ
  tireWear : ℝ

/-- Car.reset (src/index.tsx lines 128-133). -/
def Car.reset (c : Car) : Car :=
  { c with position := 0, currentLap := 1, damage := 0, tireWear := 100 }

/-- Immutable stage descriptor (src/index.tsx, class Stage, lines 136-146). -/
structure Stage where
  name : String
  length : ℝ
  laps : ℕ

def defaultCar : Car :=
  { name := "", speed := 0, handling := 0, color := "", position := 0,
    currentLap := 1, damage := 0, tireWear := 100 }

def defaultStage : Stage := { name := "", length := 0, laps := 0 }

/-- Source line 363: `car.speed / 3.6`. -/
noncomputable def speedInMps (c : Car) : ℝ := c.speed / 3.6

/-- Source line 364: `Math.pow(1 - (car.damage / 100), 1.5)`. -/
noncomputable def damagePenalty (c : Car) : ℝ := (1 - c.damage / 100) ^ (1.5 : ℝ)

/-- Source line 365: `0.4 + (car.tireWear / 100) * 0.6`. -/
noncomputable def tireGripFactor (c : Car) : ℝ := 0.4 + c.tireWear / 100 * 0.6

/-- Source line 366: `car.handling * tireGripFactor`. -/
noncomputable def effectiveHandling (c : Car) : ℝ := c.handling * tireGripFactor c

/-- Source line 367: `(Math.random() - 0.5) * (12 - effectiveHandling) * 0.12`,
with the random draw `r` made explicit. -/
noncomputable def handlingFactor (c : Car) (r : ℝ) : ℝ :=
  (r - 0.5) * (12 - effectiveHandling c) * 0.12

/-- Source line 368: `(speedInMps + (speedInMps * handlingFactor)) * damagePenalty`. -/
noncomputable def distanceIncrement (c : Car) (r : ℝ) : ℝ :=
  (speedInMps c + speedInMps c * handlingFactor c r) * damagePenalty c

/-- Source line 370: `Math.abs(handlingFactor) * (15 - car.handling) * 0.08`. -/
noncomputable def baseDamage (c : Car) (r : ℝ) : ℝ :=
  |handlingFactor c r| * (15 - c.handling) * 0.08

/-- Source line 371: `1 + (speedInMps / 70)`. -/
noncomputable def speedDamageMultiplier (c : Car) : ℝ := 1 + speedInMps c / 70

/-- Source line 372: `baseDamage * speedDamageMultiplier`. -/
noncomputable def damageTaken (c : Car) (r : ℝ) : ℝ :=
  baseDamage c r * speedDamageMultiplier c

/-- Source line 374: `(Math.abs(handlingFactor) * 2 + (speedInMps / 100)) * 0.06`. -/
noncomputable def baseTireWear (c : Car) (r : ℝ) : ℝ :=
  (|handlingFactor c r| * 2 + speedInMps c / 100) * 0.06

/-- Lines 373-376: the three mutations of the physics block, all computed from
the car's state at the start of the tick. -/
noncomputable def stepCar (c : Car) (r : ℝ) : Car :=
  { c with
    damage := min 100 (c.damage + damageTaken c r),
    tireWear := max 0 (c.tireWear - baseTireWear c r),
    position := c.position + distanceIncrement c r }

/-- JavaScript `a % b` for the nonnegative operands that occur at line 379. -/
noncomputable def jsMod (a b : ℝ) : ℝ := a - b * ⌊a / b⌋

/-- Lines 378-381: `if (car.position >= stage.length) { position %= length;
currentLap++ }`. -/
noncomputable def lapWrap (stage : Stage) (c : Car) : Car :=
  if stage.length ≤ c.position then
    { c with position := jsMod c.position stage.length,
             currentLap := c.currentLap + 1 }
  else c

/-- The complete per-car effect of one tick: skipped when already finished
(line 360), otherwise the physics step followed by the lap-wrap check. -/
noncomputable def tickCar (stage : Stage) (r : ℝ) (c : Car) : Car :=
  if stage.laps < c.currentLap then c else lapWrap stage (stepCar c r)

/-- A car finishes the stage this tick: it is still active, the physics step
carries it past the stage length, and the incremented lap exceeds the lap
count (lines 378-382). -/
def finishes (stage : Stage) (r : ℝ) (c : Car) : Prop :=
  c.currentLap ≤ stage.laps ∧ stage.length ≤ (stepCar c r).position ∧
    stage.laps < c.currentLap + 1

/-- Source line 384: `this.leaderboard[car.name]++` on the leaderboard modelled as an
association list in insertion order. -/
def lbInc (lb : List (String × ℕ)) (n : String) : List (String × ℕ) :=
  lb.map (fun p => if p.1 = n then (p.1, p.2 + 1) else p)

/-- Lookup of a leaderboard entry by car name. -/
def lbLookup (lb : List (String × ℕ)) (n : String) : Option ℕ :=
  (lb.find? (fun p => p.1 == n)).map Prod.snd

/-- The cars of a list paired with their iteration indices. -/
def withIdx : ℕ → List Car → List (ℕ × Car)
  | _, [] => []
  | i, c :: cs => (i, c) :: withIdx (i + 1) cs

/-- Accumulator of the per-tick `for (const car of this.cars)` loop: the cars
processed so far, the stage winner (by car index), the leaderboard, and the
`distanceIncrements` record (lines 358-390). -/
structure TickAcc where
  cars : List Car
  winner : Option ℕ
  leaderboard : List (String × ℕ)
  dists : List (String × ℝ)

/-- One iteration of the car loop (lines 359-390). -/
noncomputable def processCar (stage : Stage) (rs : ℕ → ℝ) (acc : TickAcc)
    (p : ℕ × Car) : TickAcc :=
  if stage.laps < p.2.currentLap then
    { acc with cars := acc.cars ++ [p.2] }
  else
    let c1 := stepCar p.2 (rs p.1)
    let ds := acc.dists ++ [(p.2.name, distanceIncrement p.2 (rs p.1))]
    if stage.length ≤ c1.position then
      let c2 : Car := { c1 with position := jsMod c1.position stage.length,
                                currentLap := c1.currentLap + 1 }
      if stage.laps < c2.currentLap ∧ acc.winner = none then
        { cars := acc.cars ++ [c2], winner := some p.1,
          leaderboard := lbInc acc.leaderboard p.2.name, dists := ds }
      else
        { acc with cars := acc.cars ++ [c2], dists := ds }
    else
      { acc with cars := acc.cars ++ [c1], dists := ds }

/-- Stage-runner state between ticks: the cars, the declared winner (if any),
the leaderboard, and `this.previousLeader` (by car index). -/
structure StageState where
  cars : List Car
  winner : Option ℕ
  leaderboard : List (String × ℕ)
  previousLeader : Option ℕ

/-- The whole car loop of one tick. -/
noncomputable def runCars (stage : Stage) (rs : ℕ → ℝ) (s : StageState) : TickAcc :=
  (withIdx 0 s.cars).foldl (processCar stage rs)
    { cars := [], winner := s.winner, leaderboard := s.leaderboard, dists := [] }

/-- The comparison key of the leader sort: `b.currentLap * stage.length +
b.position` (line 394). -/
noncomputable def progressKey (stage : Stage) (c : Car) : ℝ :=
  (c.currentLap : ℝ) * stage.length + c.position

/-- The leader key as the spec words it: `(currentLap - 1) * stage.length +
position`. -/
noncomputable def specProgressKey (stage : Stage) (c : Car) : ℝ :=
  ((c.currentLap : ℝ) - 1) * stage.length + c.position

/-- Stable insertion placing `p` before the first element of strictly smaller
key, modelling the stable descending `Array.prototype.sort` of line 394. -/
noncomputable def insertByKeyDesc (key : Car → ℝ) (p : ℕ × Car) :
    List (ℕ × Car) → List (ℕ × Car)
  | [] => [p]
  | q :: qs => if key q.2 < key p.2 then p :: q :: qs else q :: insertByKeyDesc key p qs

/-- Stable sort by descending key. -/
noncomputable def sortByKeyDesc (key : Car → ℝ) (l : List (ℕ × Car)) :
    List (ℕ × Car) :=
  l.foldl (fun acc p => insertByKeyDesc key p acc) []

/-- Source line 393: `[...this.cars].filter(c => c.currentLap <= stage.laps)`, with
iteration indices retained as car identities. -/
def activeCars (stage : Stage) (cars : List Car) : List (ℕ × Car) :=
  (withIdx 0 cars).filter (fun p => decide (p.2.currentLap ≤ stage.laps))

/-- Source line 395: `carsByProgress[0]`, the current leader as a car index. -/
noncomputable def leaderIdx (stage : Stage) (cars : List Car) : Option ℕ :=
  ((sortByKeyDesc (progressKey stage) (activeCars stage cars)).head?).map Prod.fst

/-- The leader computed with the key the spec prescribes. -/
noncomputable def specLeaderIdx (stage : Stage) (cars : List Car) : Option ℕ :=
  ((sortByKeyDesc (specProgressKey stage) (activeCars stage cars)).head?).map Prod.fst

/-- Result of one full tick (lines 358-403): new state, the
`distanceIncrements` record, and whether the overtake commentary of line 397
is emitted. -/
structure TickResult where
  state : StageState
  dists : List (String × ℝ)
  overtake : Bool

/-- One iteration of the `while (!winner && !this.isFinished)` body. -/
noncomputable def runTick (stage : Stage) (rs : ℕ → ℝ) (s : StageState) : TickResult :=
  let acc := runCars stage rs s
  let lead := leaderIdx stage acc.cars
  { state := { cars := acc.cars, winner := acc.winner,
               leaderboard := acc.leaderboard, previousLeader := lead },
    dists := acc.dists,
    overtake :=
      if lead.isSome ∧ lead ≠ s.previousLeader ∧ s.previousLeader.isSome then
        true else false }

/-- The tick loop, driven by one random source per executed tick; the guard is
exactly the loop condition of line 357 (isFinished is set iff a winner is
declared, line 402). -/
noncomputable def runTicks (stage : Stage) : List (ℕ → ℝ) → StageState → StageState
  | [], s => s
  | rs :: rest, s =>
    if s.winner.isSome then s else runTicks stage rest (runTick stage rs s).state

/-- State at the start of a stage (lines 347-349): all cars reset, no winner,
no previous leader. -/
def stageStart (cars : List Car) (lb : List (String × ℕ)) : StageState :=
  { cars := cars.map Car.reset, winner := none, leaderboard := lb,
    previousLeader := none }

/-- Source lines 411-412: `x.toFixed(1)` followed by `parseFloat`, the value rounded
to one decimal place. -/
noncomputable def round1 (x : ℝ) : ℝ := (round (10 * x) : ℤ) / 10

/-- Entry of the final-standings snapshot (line 411): name plus damage and
tire wear as displayed, i.e. rounded to one decimal. -/
structure StandingEntry where
  name : String
  damage : ℝ
  tireWear : ℝ

noncomputable def standingEntry (c : Car) : StandingEntry :=
  { name := c.name, damage := round1 c.damage, tireWear := round1 c.tireWear }

/-- Stable insertion for the ascending-by-damage sort of line 412. -/
noncomputable def insertStanding (e : StandingEntry) :
    List StandingEntry → List StandingEntry
  | [] => [e]
  | f :: fs => if e.damage < f.damage then e :: f :: fs else f :: insertStanding e fs

/-- Source lines 411-412:
`cars.map(...).sort((a, b) => parseFloat(a.damage) - parseFloat(b.damage))`
(lines 411-412). -/
noncomputable def standings (cars : List Car) : List StandingEntry :=
  (cars.map standingEntry).foldl (fun acc e => insertStanding e acc) []

/-- Source line 410: `winner?.name` with fallback string N/A. -/
def winnerName (s : StageState) : String :=
  match s.winner with
  | some i => (s.cars.getD i defaultCar).name
  | none => "N/A"

/-- A stage outcome record (lines 408-413). -/
structure StageRecord where
  stageName : String
  winner : String
  finalStandings : List StandingEntry

/-- The orchestrator state of class RacingGame restricted to the engine fields
(lines 192-227). -/
structure RacingGame where
  cars : List Car
  stages : List Stage
  leaderboard : List (String × ℕ)
  stageResults : List StageRecord
  currentStageIndex : ℕ

/-- resetForNewRace (lines 216-227) restricted to the engine fields. -/
def RacingGame.resetForNewRace (g : RacingGame) : RacingGame :=
  { g with leaderboard := g.cars.map (fun c => (c.name, 0)),
           stageResults := [], currentStageIndex := 0 }

/-- simulateStage (lines 345-415): reset the cars, run the tick loop, append
the stage record, increment the stage cursor. -/
noncomputable def RacingGame.simulateStage (g : RacingGame) (stage : Stage)
    (ticks : List (ℕ → ℝ)) : RacingGame :=
  let sF := runTicks stage ticks (stageStart g.cars g.leaderboard)
  { g with cars := sF.cars, leaderboard := sF.leaderboard,
           stageResults := g.stageResults ++
             [{ stageName := stage.name, winner := winnerName sF,
                finalStandings := standings sF.cars }],
           currentStageIndex := g.currentStageIndex + 1 }

/-- The fold of getOverallWinner (lines 417-430): `maxWins` starts at -1,
`winners` collects the names attaining it. -/
def overallWinnerAux : List (String × ℕ) → ℤ → List String → List String
  | [], _, ws => ws
  | p :: rest, maxW, ws =>
    if maxW < (p.2 : ℤ) then overallWinnerAux rest (p.2 : ℤ) [p.1]
    else if (p.2 : ℤ) = maxW then overallWinnerAux rest maxW (ws ++ [p.1])
    else overallWinnerAux rest maxW ws

/-- Source line 429: winners joined with an ampersand separator. -/
def getOverallWinner (lb : List (String × ℕ)) : String :=
  String.intercalate " & " (overallWinnerAux lb (-1) [])

/-- The maximum win count over the leaderboard, seeded with the code's -1. -/
def maxWins (lb : List (String × ℕ)) : ℤ :=
  lb.foldl (fun m p => max m (p.2 : ℤ)) (-1)

/-- The `for` loop of runRace (lines 437-440), one simulateStage per remaining
stage; the loop counter stays equal to currentStageIndex because simulateStage
increments the latter. -/
noncomputable def RacingGame.runLoop (ticks : ℕ → List (ℕ → ℝ)) :
    ℕ → RacingGame → RacingGame
  | 0, g => g
  | Nat.succ n, g =>
    RacingGame.runLoop ticks n
      (g.simulateStage (g.stages.getD g.currentStageIndex defaultStage)
        (ticks g.currentStageIndex))

/-- runRace (lines 432-440): full reset only when currentStageIndex is 0, then
the stage loop from currentStageIndex to the end. -/
noncomputable def RacingGame.runRace (ticks : ℕ → List (ℕ → ℝ))
    (g : RacingGame) : RacingGame :=
  let g0 := if g.currentStageIndex = 0 then g.resetForNewRace else g
  RacingGame.runLoop ticks (g0.stages.length - g0.currentStageIndex) g0

/-- The serializable snapshot built by saveGameState (lines 525-540). -/
structure SavedState where
  cars : List Car
  stages : List Stage
  leaderboard : List (String × ℕ)
  stageResults : List StageRecord
  currentStageIndex : ℕ
  difficulty : String

/-- saveGameState (lines 530-537). -/
def saveGameState (g : RacingGame) (difficulty : String) : SavedState :=
  { cars := g.cars, stages := g.stages, leaderboard := g.leaderboard,
    stageResults := g.stageResults, currentStageIndex := g.currentStageIndex,
    difficulty := difficulty }

/-- Source lines 120-126: `new Car(name, speed, handling, color)`, the constructor
stores the attributes and calls reset. -/
def newCar (name : String) (speed handling : ℝ) (color : String) : Car :=
  Car.reset { name := name, speed := speed, handling := handling, color := color,
              position := 0, currentLap := 1, damage := 0, tireWear := 100 }

/-- Source line 562: `Object.assign(car, savedCar)`, every enumerable field of the
saved car overwrites the fresh one. -/
def objectAssignCar (c saved : Car) : Car :=
  { c with name := saved.name, speed := saved.speed, handling := saved.handling,
           color := saved.color, position := saved.position,
           currentLap := saved.currentLap, damage := saved.damage,
           tireWear := saved.tireWear }

/-- loadGameState (lines 542-570): rebuild cars and stages from the snapshot,
construct a fresh RacingGame (whose constructor runs resetForNewRace), then
overwrite leaderboard, stageResults, currentStageIndex, and the car states. -/
def loadGameState (s : SavedState) : RacingGame :=
  let cars := s.cars.map (fun c => newCar c.name c.speed c.handling c.color)
  let stages := s.stages.map (fun st => Stage.mk st.name st.length st.laps)
  let g0 := RacingGame.resetForNewRace
    { cars := cars, stages := stages, leaderboard := [], stageResults := [],
      currentStageIndex := 0 }
  let g1 := { g0 with leaderboard := s.leaderboard,
                      stageResults := s.stageResults,
                      currentStageIndex := s.currentStageIndex }
  { g1 with cars := (g1.cars.zip s.cars).map (fun p => objectAssignCar p.1 p.2) }

/-- The physics update as the spec formulates it (spec section 4.1 and claim
C1), written independently of the code embedding above. -/
noncomputable def specTireGripFactor (c : Car) : ℝ := 0.4 + c.tireWear / 100 * 0.6

noncomputable def specHandlingFactor (c : Car) (r : ℝ) : ℝ :=
  (r - 0.5) * (12 - c.handling * specTireGripFactor c) * 0.12

noncomputable def specSpeedInMps (c : Car) : ℝ := c.speed / 3.6

noncomputable def specDamagePenalty (c : Car) : ℝ := (1 - c.damage / 100) ^ (1.5 : ℝ)

noncomputable def specDistanceIncrement (c : Car) (r : ℝ) : ℝ :=
  (specSpeedInMps c + specSpeedInMps c * specHandlingFactor c r) * specDamagePenalty c

/-- The car after one physics step according to the spec formulas of claim C1:
damage becomes `min(100, damage + |hf| * (15 - handling) * 0.08 *
(1 + speedInMps / 70))`, tire wear becomes `max(0, tireWear - (|hf| * 2 +
speedInMps / 100) * 0.06)`, position advances by the distance increment. -/
noncomputable def specStep (c : Car) (r : ℝ) : Car :=
  { c with
    damage := min 100 (c.damage +
      |specHandlingFactor c r| * (15 - c.handling) * 0.08 * (1 + specSpeedInMps c / 70)),
    tireWear := max 0 (c.tireWear -
      (|specHandlingFactor c r| * 2 + specSpeedInMps c / 100) * 0.06),
    position := c.position + specDistanceIncrement c r }

@[simp] lemma stepCar_name (c : Car) (r : ℝ) : (stepCar c r).name = c.name := rfl

@[simp] lemma stepCar_currentLap (c : Car) (r : ℝ) :
    (stepCar c r).currentLap = c.currentLap := rfl

@[simp] lemma stepCar_damage (c : Car) (r : ℝ) :
    (stepCar c r).damage = min 100 (c.damage + damageTaken c r) := rfl

@[simp] lemma stepCar_tireWear (c : Car) (r : ℝ) :
    (stepCar c r).tireWear = max 0 (c.tireWear - baseTireWear c r) := rfl

@[simp] lemma stepCar_position (c : Car) (r : ℝ) :
    (stepCar c r).position = c.position + distanceIncrement c r := rfl

lemma processCar_cars (stage : Stage) (rs : ℕ → ℝ) (acc : TickAcc) (p : ℕ × Car) :
    (processCar stage rs acc p).cars = acc.cars ++ [tickCar stage (rs p.1) p.2] := by
  simp only [processCar, tickCar, lapWrap]
  split_ifs <;> rfl

lemma foldl_processCar_cars (stage : Stage) (rs : ℕ → ℝ) :
    ∀ (l : List (ℕ × Car)) (acc : TickAcc),
      (l.foldl (processCar stage rs) acc).cars =
        acc.cars ++ l.map (fun p => tickCar stage (rs p.1) p.2)
  | [], acc => by simp
  | p :: l, acc => by
    rw [List.foldl_cons, foldl_processCar_cars stage rs l, processCar_cars]
    simp

lemma processCar_dists (stage : Stage) (rs : ℕ → ℝ) (acc : TickAcc) (p : ℕ × Car) :
    (processCar stage rs acc p).dists = acc.dists ++
      (if stage.laps < p.2.currentLap then []
       else [(p.2.name, distanceIncrement p.2 (rs p.1))]) := by
  simp only [processCar]
  split_ifs <;> simp

lemma foldl_processCar_dists (stage : Stage) (rs : ℕ → ℝ) :
    ∀ (l : List (ℕ × Car)) (acc : TickAcc),
      (l.foldl (processCar stage rs) acc).dists =
        acc.dists ++ (l.filter (fun p => decide (p.2.currentLap ≤ stage.laps))).map
          (fun p => (p.2.name, distanceIncrement p.2 (rs p.1)))
  | [], acc => by simp
  | p :: l, acc => by
    rw [List.foldl_cons, foldl_processCar_dists stage rs l, processCar_dists]
    by_cases h : p.2.currentLap ≤ stage.laps
    · rw [if_neg (by omega), List.filter_cons_of_pos (by simpa using h)]
      simp
    · rw [if_pos (by omega), List.filter_cons_of_neg (by simpa using h)]
      simp

lemma processCar_winner_keep (stage : Stage) (rs : ℕ → ℝ) (acc : TickAcc)
    (p : ℕ × Car) (w : ℕ) (h : acc.winner = some w) :
    (processCar stage rs acc p).winner = some w ∧
      (processCar stage rs acc p).leaderboard = acc.leaderboard := by
  simp only [processCar]
  split_ifs with h1 h2 h3
  · exact ⟨h, rfl⟩
  · rw [h] at h3
    exact absurd h3.2 (by simp)
  · exact ⟨h, rfl⟩
  · exact ⟨h, rfl⟩

lemma foldl_processCar_winner_some (stage : Stage) (rs : ℕ → ℝ) :
    ∀ (l : List (ℕ × Car)) (acc : TickAcc) (w : ℕ), acc.winner = some w →
      (l.foldl (processCar stage rs) acc).winner = some w ∧
        (l.foldl (processCar stage rs) acc).leaderboard = acc.leaderboard
  | [], acc, w, h => ⟨h, rfl⟩
  | p :: l, acc, w, h => by
    rw [List.foldl_cons]
    obtain ⟨h1, h2⟩ := processCar_winner_keep stage rs acc p w h
    obtain ⟨h3, h4⟩ := foldl_processCar_winner_some stage rs l
      (processCar stage rs acc p) w h1
    exact ⟨h3, h4.trans h2⟩

lemma processCar_finishes (stage : Stage) (rs : ℕ → ℝ) (acc : TickAcc)
    (p : ℕ × Car) (h : acc.winner = none) (hf : finishes stage (rs p.1) p.2) :
    (processCar stage rs acc p).winner = some p.1 ∧
      (processCar stage rs acc p).leaderboard = lbInc acc.leaderboard p.2.name := by
  obtain ⟨hle, hcross, hlap⟩ := hf
  simp only [processCar]
  rw [if_neg (by omega)]
  rw [if_pos hcross]
  rw [if_pos ⟨by simpa using hlap, h⟩]
  exact ⟨rfl, rfl⟩

lemma processCar_not_finishes (stage : Stage) (rs : ℕ → ℝ) (acc : TickAcc)
    (p : ℕ × Car) (h : acc.winner = none) (hnf : ¬ finishes stage (rs p.1) p.2) :
    (processCar stage rs acc p).winner = none ∧
      (processCar stage rs acc p).leaderboard = acc.leaderboard := by
  simp only [processCar]
  split_ifs with h1 h2 h3
  · exact ⟨h, rfl⟩
  · exact absurd ⟨by omega, h2, by simpa using h3.1⟩ hnf
  · exact ⟨h, rfl⟩
  · exact ⟨h, rfl⟩

lemma foldl_processCar_winner_none (stage : Stage) (rs : ℕ → ℝ) :
    ∀ (l : List (ℕ × Car)) (acc : TickAcc), acc.winner = none →
      ((l.foldl (processCar stage rs) acc).winner = none ∧
        (l.foldl (processCar stage rs) acc).leaderboard = acc.leaderboard) ∨
      (∃ w c l₁ l₂, (l.foldl (processCar stage rs) acc).winner = some w ∧
        l = l₁ ++ (w, c) :: l₂ ∧ finishes stage (rs w) c ∧
        (∀ q ∈ l₁, ¬ finishes stage (rs q.1) q.2) ∧
        (l.foldl (processCar stage rs) acc).leaderboard = lbInc acc.leaderboard c.name)
  | [], acc, h => Or.inl ⟨h, rfl⟩
  | p :: l, acc, h => by
    rw [List.foldl_cons]
    by_cases hf : finishes stage (rs p.1) p.2
    · obtain ⟨h1, h2⟩ := processCar_finishes stage rs acc p h hf
      obtain ⟨h3, h4⟩ := foldl_processCar_winner_some stage rs l
        (processCar stage rs acc p) p.1 h1
      refine Or.inr ⟨p.1, p.2, [], l, h3, by simp, hf, by simp, h4.trans h2⟩
    · obtain ⟨h1, h2⟩ := processCar_not_finishes stage rs acc p h hf
      rcases foldl_processCar_winner_none stage rs l (processCar stage rs acc p) h1 with
        ⟨h3, h4⟩ | ⟨w, c, l₁, l₂, h3, h4, h5, h6, h7⟩
      · exact Or.inl ⟨h3, h4.trans h2⟩
      · refine Or.inr ⟨w, c, p :: l₁, l₂, h3, by rw [h4]; rfl, h5, ?_, by rw [h7, h2]⟩
        intro q hq
        rcases List.mem_cons.mp hq with hq | hq
        · rw [hq]; exact hf
        · exact h6 q hq

lemma runTick_cars (stage : Stage) (rs : ℕ → ℝ) (s : StageState) :
    (runTick stage rs s).state.cars =
      (withIdx 0 s.cars).map (fun p => tickCar stage (rs p.1) p.2) := by
  simp [runTick, runCars, foldl_processCar_cars]

lemma runTick_dists (stage : Stage) (rs : ℕ → ℝ) (s : StageState) :
    (runTick stage rs s).dists =
      ((withIdx 0 s.cars).filter (fun p => decide (p.2.currentLap ≤ stage.laps))).map
        (fun p => (p.2.name, distanceIncrement p.2 (rs p.1))) := by
  simp [runTick, runCars, foldl_processCar_dists]

lemma runTick_previousLeader (stage : Stage) (rs : ℕ → ℝ) (s : StageState) :
    (runTick stage rs s).state.previousLeader =
      leaderIdx stage (runTick stage rs s).state.cars := rfl

lemma runTicks_of_isSome (stage : Stage) (ts : List (ℕ → ℝ)) (s : StageState)
    (h : s.winner.isSome) : runTicks stage ts s = s := by
  cases ts with
  | nil => rfl
  | cons rs rest => simp [runTicks, h]

/-- Descending sortedness by a key, as produced by the leader sort. -/
def KeySortedDesc (key : Car → ℝ) (l : List (ℕ × Car)) : Prop :=
  l.Pairwise (fun a b => key b.2 ≤ key a.2)

lemma mem_insertByKeyDesc (key : Car → ℝ) (p : ℕ × Car) :
    ∀ (l : List (ℕ × Car)) (x : ℕ × Car),
      x ∈ insertByKeyDesc key p l ↔ x = p ∨ x ∈ l
  | [], x => by simp [insertByKeyDesc]
  | q :: qs, x => by
    simp only [insertByKeyDesc]
    split_ifs with h
    · simp [List.mem_cons]
    · simp only [List.mem_cons, mem_insertByKeyDesc key p qs x]
      tauto

lemma length_insertByKeyDesc (key : Car → ℝ) (p : ℕ × Car) :
    ∀ (l : List (ℕ × Car)), (insertByKeyDesc key p l).length = l.length + 1
  | [] => rfl
  | q :: qs => by
    simp only [insertByKeyDesc]
    split_ifs with h
    · simp
    · simp [length_insertByKeyDesc key p qs]

lemma insertByKeyDesc_sorted (key : Car → ℝ) (p : ℕ × Car) :
    ∀ (l : List (ℕ × Car)), KeySortedDesc key l →
      KeySortedDesc key (insertByKeyDesc key p l)
  | [], _ => by simp [insertByKeyDesc, KeySortedDesc]
  | q :: qs, h => by
    rcases List.pairwise_cons.mp h with ⟨hq, hqs⟩
    simp only [insertByKeyDesc]
    split_ifs with hc
    · refine List.pairwise_cons.mpr ⟨?_, h⟩
      intro x hx
      rcases List.mem_cons.mp hx with hx | hx
      · rw [hx]; exact le_of_lt hc
      · exact le_trans (hq x hx) (le_of_lt hc)
    · refine List.pairwise_cons.mpr ⟨?_, insertByKeyDesc_sorted key p qs hqs⟩
      intro x hx
      rcases (mem_insertByKeyDesc key p qs x).mp hx with hx | hx
      · rw [hx]; exact not_lt.mp hc
      · exact hq x hx

lemma foldl_insertByKeyDesc_sorted (key : Car → ℝ) :
    ∀ (l : List (ℕ × Car)) (acc : List (ℕ × Car)), KeySortedDesc key acc →
      KeySortedDesc key (l.foldl (fun a p => insertByKeyDesc key p a) acc)
  | [], acc, h => h
  | p :: l, acc, h =>
    foldl_insertByKeyDesc_sorted key l _ (insertByKeyDesc_sorted key p acc h)

lemma sortByKeyDesc_sorted (key : Car → ℝ) (l : List (ℕ × Car)) :
    KeySortedDesc key (sortByKeyDesc key l) :=
  foldl_insertByKeyDesc_sorted key l [] (by simp [KeySortedDesc])

lemma mem_foldl_insertByKeyDesc (key : Car → ℝ) :
    ∀ (l : List (ℕ × Car)) (acc : List (ℕ × Car)) (x : ℕ × Car),
      x ∈ l.foldl (fun a p => insertByKeyDesc key p a) acc ↔ x ∈ acc ∨ x ∈ l
  | [], acc, x => by simp
  | p :: l, acc, x => by
    rw [List.foldl_cons, mem_foldl_insertByKeyDesc key l _ x,
      mem_insertByKeyDesc key p acc x]
    simp [List.mem_cons]
    tauto

lemma mem_sortByKeyDesc (key : Car → ℝ) (l : List (ℕ × Car)) (x : ℕ × Car) :
    x ∈ sortByKeyDesc key l ↔ x ∈ l := by
  rw [sortByKeyDesc, mem_foldl_insertByKeyDesc]
  simp

lemma length_foldl_insertByKeyDesc (key : Car → ℝ) :
    ∀ (l : List (ℕ × Car)) (acc : List (ℕ × Car)),
      (l.foldl (fun a p => insertByKeyDesc key p a) acc).length =
        acc.length + l.length
  | [], acc => rfl
  | p :: l, acc => by
    rw [List.foldl_cons, length_foldl_insertByKeyDesc key l,
      length_insertByKeyDesc]
    simp only [List.length_cons]
    omega

lemma sortByKeyDesc_eq_nil_iff (key : Car → ℝ) (l : List (ℕ × Car)) :
    sortByKeyDesc key l = [] ↔ l = [] := by
  constructor
  · intro h
    have := length_foldl_insertByKeyDesc key l []
    rw [sortByKeyDesc] at h
    rw [h] at this
    simpa using (List.length_eq_zero.mp (by omega))
  · intro h
    rw [h]
    rfl

lemma insertByKeyDesc_congr (key key2 : Car → ℝ)
    (hk : ∀ a b : Car, key a < key b ↔ key2 a < key2 b) (p : ℕ × Car) :
    ∀ (l : List (ℕ × Car)), insertByKeyDesc key p l = insertByKeyDesc key2 p l
  | [] => rfl
  | q :: qs => by
    simp only [insertByKeyDesc]
    by_cases h : key q.2 < key p.2
    · rw [if_pos h, if_pos ((hk _ _).mp h)]
    · rw [if_neg h, if_neg (fun h2 => h ((hk _ _).mpr h2)),
        insertByKeyDesc_congr key key2 hk p qs]

lemma foldl_insertByKeyDesc_congr (key key2 : Car → ℝ)
    (hk : ∀ a b : Car, key a < key b ↔ key2 a < key2 b) :
    ∀ (l : List (ℕ × Car)) (acc : List (ℕ × Car)),
      l.foldl (fun a p => insertByKeyDesc key p a) acc =
        l.foldl (fun a p => insertByKeyDesc key2 p a) acc
  | [], acc => rfl
  | p :: l, acc => by
    rw [List.foldl_cons, List.foldl_cons, insertByKeyDesc_congr key key2 hk,
      foldl_insertByKeyDesc_congr key key2 hk l]

lemma sortByKeyDesc_congr (key key2 : Car → ℝ)
    (hk : ∀ a b : Car, key a < key b ↔ key2 a < key2 b) (l : List (ℕ × Car)) :
    sortByKeyDesc key l = sortByKeyDesc key2 l :=
  foldl_insertByKeyDesc_congr key key2 hk l []

lemma progressKey_eq_spec_add (stage : Stage) (c : Car) :
    progressKey stage c = specProgressKey stage c + stage.length := by
  simp only [progressKey, specProgressKey]
  ring

lemma progressKey_lt_iff (stage : Stage) (a b : Car) :
    progressKey stage a < progressKey stage b ↔
      specProgressKey stage a < specProgressKey stage b := by
  rw [progressKey_eq_spec_add, progressKey_eq_spec_add, add_lt_add_iff_right]

lemma leaderIdx_eq_specLeaderIdx (stage : Stage) (cars : List Car) :
    leaderIdx stage cars = specLeaderIdx stage cars := by
  rw [leaderIdx, specLeaderIdx,
    sortByKeyDesc_congr (progressKey stage) (specProgressKey stage)
      (progressKey_lt_iff stage)]

lemma lbLookup_lbInc_self (n : String) :
    ∀ (lb : List (String × ℕ)),
      lbLookup (lbInc lb n) n = (lbLookup lb n).map (fun k => k + 1)
  | [] => rfl
  | p :: lb => by
    by_cases h : p.1 = n
    · simp only [lbInc, List.map_cons, lbLookup, if_pos h]
      rw [List.find?_cons_of_pos _ (by simpa using h),
        List.find?_cons_of_pos _ (by simpa using h)]
      rfl
    · simp only [lbInc, List.map_cons, lbLookup, if_neg h]
      rw [List.find?_cons_of_neg _ (by simpa using h),
        List.find?_cons_of_neg _ (by simpa using h)]
      exact lbLookup_lbInc_self n lb

lemma lbLookup_lbInc_other (n m : String) (hnm : m ≠ n) :
    ∀ (lb : List (String × ℕ)), lbLookup (lbInc lb n) m = lbLookup lb m
  | [] => rfl
  | p :: lb => by
    by_cases h : p.1 = n
    · simp only [lbInc, List.map_cons, lbLookup, if_pos h]
      rw [List.find?_cons_of_neg _ (by simp [h]; exact fun hh => hnm hh.symm),
        List.find?_cons_of_neg _ (by simp [h]; exact fun hh => hnm hh.symm)]
      exact lbLookup_lbInc_other n m hnm lb
    · simp only [lbInc, List.map_cons, lbLookup, if_neg h]
      by_cases h2 : p.1 = m
      · rw [List.find?_cons_of_pos _ (by simpa using h2),
          List.find?_cons_of_pos _ (by simpa using h2)]
      · rw [List.find?_cons_of_neg _ (by simpa using h2),
          List.find?_cons_of_neg _ (by simpa using h2)]
        exact lbLookup_lbInc_other n m hnm lb

lemma jsMod_eq_fract (a b : ℝ) (hb : b ≠ 0) :
    jsMod a b = b * Int.fract (a / b) := by
  rw [jsMod, Int.fract, mul_sub, mul_comm b (a / b), div_mul_cancel₀ a hb]

lemma jsMod_nonneg (a b : ℝ) (hb : 0 < b) : 0 ≤ jsMod a b := by
  rw [jsMod_eq_fract a b (ne_of_gt hb)]
  exact mul_nonneg hb.le (Int.fract_nonneg _)

lemma jsMod_lt (a b : ℝ) (hb : 0 < b) : jsMod a b < b := by
  rw [jsMod_eq_fract a b (ne_of_gt hb)]
  calc b * Int.fract (a / b) < b * 1 :=
        mul_lt_mul_of_pos_left (Int.fract_lt_one _) hb
    _ = b := mul_one b

lemma speedInMps_nonneg (c : Car) (hs : 0 ≤ c.speed) : 0 ≤ speedInMps c :=
  div_nonneg hs (by norm_num)

lemma damageTaken_nonneg (c : Car) (r : ℝ) (hs : 0 ≤ c.speed)
    (hh : c.handling ≤ 15) : 0 ≤ damageTaken c r := by
  have h1 : (0:ℝ) ≤ |handlingFactor c r| := abs_nonneg _
  have h2 : (0:ℝ) ≤ 15 - c.handling := by linarith
  have h3 : (0:ℝ) ≤ 1 + speedInMps c / 70 := by
    have := speedInMps_nonneg c hs
    linarith
  exact mul_nonneg (mul_nonneg (mul_nonneg h1 h2) (by norm_num)) h3

lemma baseTireWear_nonneg (c : Car) (r : ℝ) (hs : 0 ≤ c.speed) :
    0 ≤ baseTireWear c r := by
  have h1 : (0:ℝ) ≤ |handlingFactor c r| := abs_nonneg _
  have h3 := speedInMps_nonneg c hs
  have : (0:ℝ) ≤ |handlingFactor c r| * 2 + speedInMps c / 100 := by linarith
  exact mul_nonneg this (by norm_num)

lemma tireGripFactor_bounds (c : Car) (ht0 : 0 ≤ c.tireWear)
    (ht1 : c.tireWear ≤ 100) : 0.4 ≤ tireGripFactor c ∧ tireGripFactor c ≤ 1 := by
  rw [tireGripFactor]
  constructor <;> nlinarith

lemma effectiveHandling_bounds (c : Car) (hh0 : 0 ≤ c.handling)
    (hh : c.handling ≤ 10) (ht0 : 0 ≤ c.tireWear) (ht1 : c.tireWear ≤ 100) :
    0 ≤ effectiveHandling c ∧ effectiveHandling c ≤ 10 := by
  obtain ⟨hg0, hg1⟩ := tireGripFactor_bounds c ht0 ht1
  rw [effectiveHandling]
  constructor
  · exact mul_nonneg hh0 (by linarith)
  · nlinarith

lemma abs_handlingFactor_le (c : Car) (r : ℝ) (hh0 : 0 ≤ c.handling)
    (hh : c.handling ≤ 10) (ht0 : 0 ≤ c.tireWear) (ht1 : c.tireWear ≤ 100)
    (hr0 : 0 ≤ r) (hr1 : r < 1) : |handlingFactor c r| ≤ 0.72 := by
  obtain ⟨he0, he1⟩ := effectiveHandling_bounds c hh0 hh ht0 ht1
  have hr : |r - 0.5| ≤ 0.5 := abs_le.mpr ⟨by linarith, by linarith⟩
  have h12 : |12 - effectiveHandling c| ≤ 12 :=
    abs_le.mpr ⟨by linarith, by linarith⟩
  rw [handlingFactor, abs_mul, abs_mul]
  have h1 : |r - 0.5| * |12 - effectiveHandling c| ≤ 0.5 * 12 :=
    mul_le_mul hr h12 (abs_nonneg _) (by norm_num)
  have h2 : |(0.12:ℝ)| = 0.12 := by norm_num [abs_of_nonneg]
  rw [h2]
  nlinarith [abs_nonneg (r - 0.5), abs_nonneg (12 - effectiveHandling c)]

lemma damagePenalty_nonneg (c : Car) (hd1 : c.damage ≤ 100) :
    0 ≤ damagePenalty c :=
  Real.rpow_nonneg (by rw [sub_nonneg]; linarith) _

lemma distanceIncrement_nonneg (c : Car) (r : ℝ) (hs : 0 ≤ c.speed)
    (hh0 : 0 ≤ c.handling) (hh : c.handling ≤ 10) (ht0 : 0 ≤ c.tireWear)
    (ht1 : c.tireWear ≤ 100) (hd1 : c.damage ≤ 100) (hr0 : 0 ≤ r) (hr1 : r < 1) :
    0 ≤ distanceIncrement c r := by
  have hfb := abs_handlingFactor_le c r hh0 hh ht0 ht1 hr0 hr1
  have hf1 : -(0.72:ℝ) ≤ handlingFactor c r := (abs_le.mp hfb).1
  have h1 := speedInMps_nonneg c hs
  have h2 : (0:ℝ) ≤ 1 + handlingFactor c r := by linarith
  have h3 := damagePenalty_nonneg c hd1
  have h4 : speedInMps c + speedInMps c * handlingFactor c r =
      speedInMps c * (1 + handlingFactor c r) := by ring
  rw [distanceIncrement, h4]
  exact mul_nonneg (mul_nonneg h1 h2) h3

lemma foldMax_le (lb : List (String × ℕ)) :
    ∀ (m : ℤ), m ≤ lb.foldl (fun a p => max a (p.2 : ℤ)) m := by
  induction lb with
  | nil => exact fun m => le_refl m
  | cons p lb ih =>
    intro m
    exact le_trans (le_max_left m (p.2 : ℤ)) (ih (max m (p.2 : ℤ)))

lemma overallWinnerAux_eq :
    ∀ (lb : List (String × ℕ)) (m : ℤ) (ws : List String),
      overallWinnerAux lb m ws =
        (if lb.foldl (fun a p => max a (p.2 : ℤ)) m = m then ws else []) ++
          (lb.filter
            (fun p => decide ((p.2 : ℤ) = lb.foldl (fun a q => max a (q.2 : ℤ)) m))).map
            Prod.fst
  | [], m, ws => by simp [overallWinnerAux]
  | p :: lb, m, ws => by
    simp only [overallWinnerAux, List.foldl_cons, List.filter_cons]
    rcases lt_trichotomy m (p.2 : ℤ) with h1 | h1 | h1
    · rw [if_pos h1, overallWinnerAux_eq lb (p.2 : ℤ) [p.1]]
      simp only [max_eq_right h1.le, decide_eq_true_eq]
      have hge := foldMax_le lb (p.2 : ℤ)
      split_ifs <;> first | (simp; done) | (exfalso; omega)
    · rw [if_neg (by omega), if_pos h1.symm, overallWinnerAux_eq lb m (ws ++ [p.1])]
      simp only [max_eq_left (le_of_eq h1.symm), decide_eq_true_eq]
      have hge := foldMax_le lb m
      split_ifs <;> first | (simp; done) | (exfalso; omega)
    · rw [if_neg (by omega), if_neg (by omega), overallWinnerAux_eq lb m ws]
      simp only [max_eq_left h1.le, decide_eq_true_eq]
      have hge := foldMax_le lb m
      split_ifs <;> first | (simp; done) | (exfalso; omega)

lemma mem_insertStanding (e : StandingEntry) :
    ∀ (l : List StandingEntry) (x : StandingEntry),
      x ∈ insertStanding e l ↔ x = e ∨ x ∈ l
  | [], x => by simp [insertStanding]
  | f :: fs, x => by
    simp only [insertStanding]
    split_ifs with h
    · simp [List.mem_cons]
    · simp only [List.mem_cons, mem_insertStanding e fs x]
      tauto

lemma insertStanding_sorted (e : StandingEntry) :
    ∀ (l : List StandingEntry), l.Pairwise (fun a b => a.damage ≤ b.damage) →
      (insertStanding e l).Pairwise (fun a b => a.damage ≤ b.damage)
  | [], _ => by simp [insertStanding]
  | f :: fs, h => by
    rcases List.pairwise_cons.mp h with ⟨hf, hfs⟩
    simp only [insertStanding]
    split_ifs with hc
    · refine List.pairwise_cons.mpr ⟨?_, h⟩
      intro x hx
      rcases List.mem_cons.mp hx with hx | hx
      · rw [hx]; exact le_of_lt hc
      · exact le_trans (le_of_lt hc) (hf x hx)
    · refine List.pairwise_cons.mpr ⟨?_, insertStanding_sorted e fs hfs⟩
      intro x hx
      rcases (mem_insertStanding e fs x).mp hx with hx | hx
      · rw [hx]; exact not_lt.mp hc
      · exact hf x hx

lemma foldl_insertStanding_sorted :
    ∀ (l : List StandingEntry) (acc : List StandingEntry),
      acc.Pairwise (fun a b => a.damage ≤ b.damage) →
      (l.foldl (fun a e => insertStanding e a) acc).Pairwise
        (fun a b => a.damage ≤ b.damage)
  | [], _, h => h
  | e :: l, acc, h =>
    foldl_insertStanding_sorted l _ (insertStanding_sorted e acc h)

lemma standings_sorted (cars : List Car) :
    (standings cars).Pairwise (fun a b => a.damage ≤ b.damage) :=
  foldl_insertStanding_sorted (cars.map standingEntry) [] (by simp)

lemma insertStanding_perm (e : StandingEntry) :
    ∀ (l : List StandingEntry), (insertStanding e l).Perm (e :: l)
  | [] => List.Perm.refl _
  | f :: fs => by
    simp only [insertStanding]
    split_ifs with h
    · exact List.Perm.refl _
    · exact ((insertStanding_perm e fs).cons f).trans (List.Perm.swap e f fs)

lemma foldl_insertStanding_perm :
    ∀ (l : List StandingEntry) (acc : List StandingEntry),
      (l.foldl (fun a e => insertStanding e a) acc).Perm (acc ++ l)
  | [], acc => by simp
  | e :: l, acc => by
    rw [List.foldl_cons]
    refine (foldl_insertStanding_perm l (insertStanding e acc)).trans ?_
    refine (((insertStanding_perm e acc).append_right l).trans ?_)
    exact List.perm_middle.symm.trans (by simp)

lemma standings_perm (cars : List Car) :
    (standings cars).Perm (cars.map standingEntry) := by
  have := foldl_insertStanding_perm (cars.map standingEntry) []
  simpa using this

lemma mem_withIdx (c : Car) :
    ∀ (l : List Car) (i j : ℕ), (j, c) ∈ withIdx i l → c ∈ l
  | [], i, j, h => by simp [withIdx] at h
  | d :: l, i, j, h => by
    rcases List.mem_cons.mp h with h | h
    · have : c = d := congrArg Prod.snd h
      rw [this]
      exact List.mem_cons_self d l
    · exact List.mem_cons_of_mem d (mem_withIdx c l (i + 1) j h)

lemma tickCar_lap_ge_one (stage : Stage) (r : ℝ) (c : Car)
    (h : 1 ≤ c.currentLap) : 1 ≤ (tickCar stage r c).currentLap := by
  unfold tickCar lapWrap
  split_ifs with h1 h2
  · exact h
  · simp only [stepCar_currentLap]
    omega
  · simpa using h

lemma runTicks_stuck (stage : Stage) :
    ∀ (ts : List (ℕ → ℝ)) (s : StageState), s.winner = none →
      (s.cars = [] ∨ (stage.laps = 0 ∧ ∀ c ∈ s.cars, 1 ≤ c.currentLap)) →
      (runTicks stage ts s).winner = none
  | [], s, hw, _ => hw
  | rs :: ts, s, hw, hc => by
    rw [runTicks, if_neg (by simp [hw])]
    have hwnone : (runTick stage rs s).state.winner = none := by
      rcases foldl_processCar_winner_none stage rs (withIdx 0 s.cars)
        ⟨[], s.winner, s.leaderboard, []⟩ hw with ⟨h1, _⟩ | ⟨w, c, l₁, l₂, _, h2, h3, _, _⟩
      · exact h1
      · exfalso
        have hcmem : c ∈ s.cars := by
          apply mem_withIdx c s.cars 0 w
          rw [h2]
          simp
        rcases hc with hc | hc
        · rw [hc] at hcmem
          simp at hcmem
        · have := hc.2 c hcmem
          have := h3.1
          omega
    apply runTicks_stuck stage ts _ hwnone
    rw [runTick_cars]
    rcases hc with hc | hc
    · left
      rw [hc]
      rfl
    · right
      refine ⟨hc.1, ?_⟩
      intro c hcm
      rcases List.mem_map.mp hcm with ⟨p, hp, hpe⟩
      rw [← hpe]
      exact tickCar_lap_ge_one stage (rs p.1) p.2 (hc.2 p.2 (mem_withIdx p.2 s.cars 0 p.1 (by
        rcases p with ⟨i, d⟩
        exact hp)))

lemma runTick_winner (stage : Stage) (rs : ℕ → ℝ) (s : StageState) :
    (runTick stage rs s).state.winner =
      ((withIdx 0 s.cars).foldl (processCar stage rs)
        ⟨[], s.winner, s.leaderboard, []⟩).winner := rfl

lemma runTick_leaderboard (stage : Stage) (rs : ℕ → ℝ) (s : StageState) :
    (runTick stage rs s).state.leaderboard =
      ((withIdx 0 s.cars).foldl (processCar stage rs)
        ⟨[], s.winner, s.leaderboard, []⟩).leaderboard := rfl

/-- Concrete stage and car used as witnesses: one lap of one metre, a single
car at 36 km/h (10 m/s) with handling 2. -/
def stageW : Stage := { name := "S", length := 1, laps := 1 }

def soloW : Car :=
  { name := "Solo", speed := 36, handling := 2, color := "b", position := 0,
    currentLap := 1, damage := 0, tireWear := 100 }

def stateW : StageState :=
  { cars := [soloW], winner := none, leaderboard := [("Solo", 0)],
    previousLeader := none }

def stateWon : StageState :=
  { cars := [soloW], winner := some 0, leaderboard := [("Solo", 1)],
    previousLeader := none }

/-- Claim C1: for every car with currentLap ≤ stage.laps and every tick, given the
tick's random value r in [0,1), the physics step updates the car exactly by
the spec formulas (speed conversion, damage penalty, tire grip, handling
factor, distance increment, damage, tire wear, position), and the tick
reports the distance increment for that car in its distanceIncrements
record. -/
theorem claim_C1 (stage : Stage) (rs : ℕ → ℝ) (s : StageState) (i : ℕ) (c : Car)
    (hmem : (i, c) ∈ withIdx 0 s.cars) (hlap : c.currentLap ≤ stage.laps)
    (hr0 : 0 ≤ rs i) (hr1 : rs i < 1) :
    stepCar c (rs i) = specStep c (rs i) ∧
      (c.name, specDistanceIncrement c (rs i)) ∈ (runTick stage rs s).dists := by
  constructor
  · rfl
  · rw [runTick_dists]
    refine List.mem_map.mpr ⟨(i, c), ?_, rfl⟩
    exact List.mem_filter.mpr ⟨hmem, by simpa using hlap⟩

theorem claim_C1_witness :
    stepCar soloW ((fun _ => (0.5 : ℝ)) 0) = specStep soloW ((fun _ => (0.5 : ℝ)) 0) ∧
      (soloW.name, specDistanceIncrement soloW ((fun _ => (0.5 : ℝ)) 0)) ∈
        (runTick stageW (fun _ => (0.5 : ℝ)) stateW).dists :=
  claim_C1 stageW (fun _ => (0.5 : ℝ)) stateW 0 soloW
    (by simp [stateW, withIdx]) (by simp [soloW, stageW]) (by norm_num) (by norm_num)

/-- Claim C2: for every car with in-range attributes and state, damage and tire wear
lie in [0,100] before and after a tick, damage is non-decreasing and tire wear
non-increasing across the tick, reset restores damage 0 and tire wear 100, and
each tick acts on the cars exactly through the per-car update tickCar. -/
theorem claim_C2 (stage : Stage) (r : ℝ) (rs : ℕ → ℝ) (s : StageState) (c : Car)
    (hs : 0 ≤ c.speed) (hh0 : 0 ≤ c.handling) (hh : c.handling ≤ 10)
    (hd0 : 0 ≤ c.damage) (hd1 : c.damage ≤ 100)
    (ht0 : 0 ≤ c.tireWear) (ht1 : c.tireWear ≤ 100) :
    (0 ≤ (tickCar stage r c).damage ∧ (tickCar stage r c).damage ≤ 100 ∧
     0 ≤ (tickCar stage r c).tireWear ∧ (tickCar stage r c).tireWear ≤ 100 ∧
     c.damage ≤ (tickCar stage r c).damage ∧
     (tickCar stage r c).tireWear ≤ c.tireWear) ∧
    ((Car.reset c).damage = 0 ∧ (Car.reset c).tireWear = 100) ∧
    (runTick stage rs s).state.cars =
      (withIdx 0 s.cars).map (fun p => tickCar stage (rs p.1) p.2) := by
  refine ⟨?_, ⟨rfl, rfl⟩, runTick_cars stage rs s⟩
  have hdt := damageTaken_nonneg c r hs (by linarith)
  have hbt := baseTireWear_nonneg c r hs
  have hd' : 0 ≤ (stepCar c r).damage ∧ (stepCar c r).damage ≤ 100 ∧
      c.damage ≤ (stepCar c r).damage := by
    rw [stepCar_damage]
    exact ⟨le_min (by norm_num) (by linarith), min_le_left _ _,
      le_min hd1 (by linarith)⟩
  have ht' : 0 ≤ (stepCar c r).tireWear ∧ (stepCar c r).tireWear ≤ 100 ∧
      (stepCar c r).tireWear ≤ c.tireWear := by
    rw [stepCar_tireWear]
    exact ⟨le_max_left _ _, max_le (by norm_num) (by linarith),
      max_le ht0 (by linarith)⟩
  unfold tickCar lapWrap
  split_ifs with h1 h2
  · exact ⟨hd0, hd1, ht0, ht1, le_refl _, le_refl _⟩
  · exact ⟨hd'.1, hd'.2.1, ht'.1, ht'.2.1, hd'.2.2, ht'.2.2⟩
  · exact ⟨hd'.1, hd'.2.1, ht'.1, ht'.2.1, hd'.2.2, ht'.2.2⟩

theorem claim_C2_witness : 0 ≤ (tickCar stageW 0.5 soloW).damage :=
  (claim_C2 stageW 0.5 (fun _ => (0.5 : ℝ)) stateW soloW
    (by norm_num [soloW]) (by norm_num [soloW]) (by norm_num [soloW])
    (by norm_num [soloW]) (by norm_num [soloW]) (by norm_num [soloW])
    (by norm_num [soloW])).1.1

/-- Claim C3: in every stage run, once a winner is declared no further ticks are
simulated; a tick that declares no winner leaves the leaderboard unchanged;
and when a tick declares winner w, w is the first car in tick-processing order
that finishes this tick, the whole leaderboard is updated by lbInc, the
winner's entry increases by exactly 1, and every other entry is unchanged. -/
theorem claim_C3 (stage : Stage) (rs : ℕ → ℝ) (s : StageState)
    (h : s.winner = none) :
    (∀ (ts : List (ℕ → ℝ)) (s₁ : StageState), s₁.winner.isSome →
      runTicks stage ts s₁ = s₁) ∧
    ((runTick stage rs s).state.winner = none →
      (runTick stage rs s).state.leaderboard = s.leaderboard) ∧
    (∀ w, (runTick stage rs s).state.winner = some w →
      ∃ c l₁ l₂, withIdx 0 s.cars = l₁ ++ (w, c) :: l₂ ∧
        finishes stage (rs w) c ∧
        (∀ q ∈ l₁, ¬ finishes stage (rs q.1) q.2) ∧
        (runTick stage rs s).state.leaderboard = lbInc s.leaderboard c.name ∧
        lbLookup (runTick stage rs s).state.leaderboard c.name =
          (lbLookup s.leaderboard c.name).map (fun k => k + 1) ∧
        (∀ n, n ≠ c.name →
          lbLookup (runTick stage rs s).state.leaderboard n =
            lbLookup s.leaderboard n)) := by
  have hw := foldl_processCar_winner_none stage rs (withIdx 0 s.cars)
    ⟨[], s.winner, s.leaderboard, []⟩ h
  refine ⟨fun ts s₁ h₁ => runTicks_of_isSome stage ts s₁ h₁, ?_, ?_⟩
  · intro hnone
    rcases hw with ⟨_, h2⟩ | ⟨w, c, l₁, l₂, h1, _, _, _, _⟩
    · rw [runTick_leaderboard]
      exact h2
    · rw [runTick_winner] at hnone
      rw [hnone] at h1
      cases h1
  · intro w hsome
    rcases hw with ⟨h1, _⟩ | ⟨w', c, l₁, l₂, h1, h2, h3, h4, h5⟩
    · rw [runTick_winner] at hsome
      rw [h1] at hsome
      cases hsome
    · rw [runTick_winner] at hsome
      rw [h1] at hsome
      have hww : w' = w := by
        injection hsome
      subst hww
      have hlb : (runTick stage rs s).state.leaderboard =
          lbInc s.leaderboard c.name := by
        rw [runTick_leaderboard]
        exact h5
      refine ⟨c, l₁, l₂, h2, h3, h4, hlb, ?_, ?_⟩
      · rw [hlb]
        exact lbLookup_lbInc_self c.name s.leaderboard
      · intro n hn
        rw [hlb]
        exact lbLookup_lbInc_other c.name n hn s.leaderboard

theorem claim_C3_witness :
    runTicks stageW [fun _ => (0.5 : ℝ)] stateWon = stateWon :=
  (claim_C3 stageW (fun _ => (0.5 : ℝ)) stateW rfl).1 [fun _ => (0.5 : ℝ)] stateWon rfl

/-- Claim C4: the leader the code computes with key currentLap * length + position
equals the leader the spec prescribes with key (currentLap - 1) * length +
position; the spec-key leader has maximal spec key among the active cars; and
the leader is null exactly when no car is still active. -/
theorem claim_C4 (stage : Stage) (cars : List Car) :
    leaderIdx stage cars = specLeaderIdx stage cars ∧
    (∀ hd, (sortByKeyDesc (specProgressKey stage) (activeCars stage cars)).head? =
        some hd →
      ∀ p ∈ activeCars stage cars,
        specProgressKey stage p.2 ≤ specProgressKey stage hd.2) ∧
    (leaderIdx stage cars = none ↔ activeCars stage cars = []) := by
  refine ⟨leaderIdx_eq_specLeaderIdx stage cars, ?_, ?_⟩
  · intro hd hhd p hp
    have hsort := sortByKeyDesc_sorted (specProgressKey stage) (activeCars stage cars)
    have hmem : p ∈ sortByKeyDesc (specProgressKey stage) (activeCars stage cars) :=
      (mem_sortByKeyDesc _ _ _).mpr hp
    cases hsl : sortByKeyDesc (specProgressKey stage) (activeCars stage cars) with
    | nil =>
      rw [hsl] at hhd
      cases hhd
    | cons x xs =>
      rw [hsl] at hhd hmem hsort
      have hx : x = hd := by
        injection hhd
      subst hx
      rcases List.mem_cons.mp hmem with hpe | hpe
      · rw [hpe]
      · exact (List.pairwise_cons.mp hsort).1 p hpe
  · rw [leaderIdx, Option.map_eq_none', List.head?_eq_none_iff,
      sortByKeyDesc_eq_nil_iff]

def stage4 : Stage := { name := "S", length := 100, laps := 5 }

def carX : Car :=
  { name := "X", speed := 200, handling := 5, color := "x", position := 10,
    currentLap := 1, damage := 0, tireWear := 100 }

def carY : Car :=
  { name := "Y", speed := 210, handling := 6, color := "y", position := 20,
    currentLap := 1, damage := 0, tireWear := 100 }

theorem claim_C4_witness :
    specProgressKey stage4 carX ≤ specProgressKey stage4 carY := by
  have hhd : (sortByKeyDesc (specProgressKey stage4)
      (activeCars stage4 [carX, carY])).head? = some (1, carY) := by
    norm_num [sortByKeyDesc, activeCars, withIdx, insertByKeyDesc,
      specProgressKey, carX, carY, stage4]
  exact (claim_C4 stage4 [carX, carY]).2.1 (1, carY) hhd (0, carX)
    (by norm_num [activeCars, withIdx, carX, stage4])

/-- Claim C6: for a car with handling on the 0-10 scale in a reachable state, the
position after a tick (after the lap-wrap correction) lies in
[0, stage.length): the distance increment is never negative, so position
never becomes negative, and the modulo of the wrap check leaves it below the
stage length. -/
theorem claim_C6 (stage : Stage) (r : ℝ) (c : Car) (hL : 0 < stage.length)
    (hr0 : 0 ≤ r) (hr1 : r < 1) (hs : 0 ≤ c.speed) (hh0 : 0 ≤ c.handling)
    (hh : c.handling ≤ 10) (hd0 : 0 ≤ c.damage) (hd1 : c.damage ≤ 100)
    (ht0 : 0 ≤ c.tireWear) (ht1 : c.tireWear ≤ 100) (hp0 : 0 ≤ c.position)
    (hp1 : c.position < stage.length) :
    0 ≤ (tickCar stage r c).position ∧ (tickCar stage r c).position < stage.length := by
  have hdi := distanceIncrement_nonneg c r hs hh0 hh ht0 ht1 hd1 hr0 hr1
  unfold tickCar lapWrap
  split_ifs with h1 h2
  · exact ⟨hp0, hp1⟩
  · exact ⟨jsMod_nonneg _ _ hL, jsMod_lt _ _ hL⟩
  · refine ⟨?_, not_le.mp h2⟩
    rw [stepCar_position]
    linarith

theorem claim_C6_witness : 0 ≤ (tickCar stageW 0.5 soloW).position :=
  (claim_C6 stageW 0.5 soloW (by norm_num [stageW]) (by norm_num) (by norm_num)
    (by norm_num [soloW]) (by norm_num [soloW]) (by norm_num [soloW])
    (by norm_num [soloW]) (by norm_num [soloW]) (by norm_num [soloW])
    (by norm_num [soloW]) (by norm_num [soloW]) (by norm_num [soloW, stageW])).1

/-- Claim C7: with an empty car roster or a zero-lap stage, the stage runner never
declares a winner no matter how many ticks execute, so the while-loop guard
of simulateStage never becomes false: the engine loops forever instead of
failing fast with a configuration error. -/
theorem claim_C7 (g : RacingGame) (stage : Stage) (ts : List (ℕ → ℝ))
    (h : g.cars = [] ∨ stage.laps = 0) :
    (runTicks stage ts (stageStart g.cars g.leaderboard)).winner = none := by
  apply runTicks_stuck stage ts (stageStart g.cars g.leaderboard) rfl
  rcases h with h | h
  · left
    simp [stageStart, h]
  · right
    refine ⟨h, ?_⟩
    intro c hc
    rcases List.mem_map.mp hc with ⟨d, _, hd⟩
    rw [← hd]
    simp [Car.reset]

def gEmpty : RacingGame :=
  { cars := [], stages := [stageW], leaderboard := [], stageResults := [],
    currentStageIndex := 0 }

theorem claim_C7_witness :
    (runTicks stageW [fun _ => (0.5 : ℝ)]
      (stageStart gEmpty.cars gEmpty.leaderboard)).winner = none :=
  claim_C7 gEmpty stageW [fun _ => (0.5 : ℝ)] (Or.inl rfl)

/-- Claim C8: the overall-winner fold returns exactly the names whose win count
equals the maximum over all leaderboard entries; ties yield a combined
designation joined by an ampersand rather than an error, and with leaderboard
A:2, B:1, C:0, D:0 the winner designation is A alone. -/
theorem claim_C8 :
    (∀ lb : List (String × ℕ), overallWinnerAux lb (-1) [] =
      (lb.filter (fun p => decide ((p.2 : ℤ) = maxWins lb))).map Prod.fst) ∧
    getOverallWinner [("A", 2), ("B", 1), ("C", 0), ("D", 0)] = "A" ∧
    getOverallWinner [("A", 2), ("B", 2), ("C", 0)] = "A & B" := by
  refine ⟨?_, rfl, rfl⟩
  intro lb
  rw [overallWinnerAux_eq lb (-1) []]
  simp [maxWins]

lemma simulateStage_stageResults (g : RacingGame) (stage : Stage)
    (ticks : List (ℕ → ℝ)) :
    (g.simulateStage stage ticks).stageResults = g.stageResults ++
      [{ stageName := stage.name,
         winner := winnerName (runTicks stage ticks (stageStart g.cars g.leaderboard)),
         finalStandings :=
           standings (runTicks stage ticks (stageStart g.cars g.leaderboard)).cars }] := rfl

lemma simulateStage_currentStageIndex (g : RacingGame) (stage : Stage)
    (ticks : List (ℕ → ℝ)) :
    (g.simulateStage stage ticks).currentStageIndex = g.currentStageIndex + 1 := rfl

lemma simulateStage_stages (g : RacingGame) (stage : Stage)
    (ticks : List (ℕ → ℝ)) :
    (g.simulateStage stage ticks).stages = g.stages := rfl

lemma runLoop_results (ticks : ℕ → List (ℕ → ℝ)) :
    ∀ (n : ℕ) (g : RacingGame),
      ∃ tail, (RacingGame.runLoop ticks n g).stageResults = g.stageResults ++ tail ∧
        tail.map StageRecord.stageName = (List.range n).map
          (fun k => (g.stages.getD (g.currentStageIndex + k) defaultStage).name)
  | 0, g => ⟨[], by simp [RacingGame.runLoop], by simp⟩
  | Nat.succ n, g => by
    obtain ⟨tail, h1, h2⟩ := runLoop_results ticks n
      (g.simulateStage (g.stages.getD g.currentStageIndex defaultStage)
        (ticks g.currentStageIndex))
    refine ⟨{ stageName := (g.stages.getD g.currentStageIndex defaultStage).name,
              winner := winnerName (runTicks
                (g.stages.getD g.currentStageIndex defaultStage)
                (ticks g.currentStageIndex) (stageStart g.cars g.leaderboard)),
              finalStandings := standings (runTicks
                (g.stages.getD g.currentStageIndex defaultStage)
                (ticks g.currentStageIndex) (stageStart g.cars g.leaderboard)).cars }
            :: tail, ?_, ?_⟩
    · show (RacingGame.runLoop ticks n _).stageResults = _
      rw [h1, simulateStage_stageResults]
      simp
    · rw [List.map_cons, h2, simulateStage_stages, simulateStage_currentStageIndex,
        List.range_succ_eq_map, List.map_cons, List.map_map]
      refine congrArg₂ _ (by simp) ?_
      apply List.map_congr_left
      intro k _
      simp only [Function.comp_apply]
      congr 2
      omega

lemma drop_map_name :
    ∀ (l : List Stage) (i : ℕ),
      (l.drop i).map Stage.name = (List.range (l.length - i)).map
        (fun k => (l.getD (i + k) defaultStage).name)
  | [], i => by simp
  | s :: t, 0 => by
    rw [List.drop_zero, List.length_cons, Nat.sub_zero, List.range_succ_eq_map,
      List.map_cons, List.map_cons, List.map_map]
    refine congrArg₂ _ rfl ?_
    have ih := drop_map_name t 0
    simp only [List.drop_zero, Nat.sub_zero, zero_add] at ih
    rw [ih]
    apply List.map_congr_left
    intro k _
    simp
  | s :: t, Nat.succ i => by
    rw [List.drop_succ_cons, List.length_cons, Nat.succ_sub_succ,
      drop_map_name t i]
    apply List.map_congr_left
    intro k _
    have : i + 1 + k = (i + k) + 1 := by omega
    rw [this]
    simp

lemma objectAssignCar_eq (x c : Car) : objectAssignCar x c = c := rfl

lemma zip_map_assign (f : Car → Car) :
    ∀ (l : List Car), ((l.map f).zip l).map (fun p => objectAssignCar p.1 p.2) = l
  | [] => rfl
  | c :: l => by
    rw [List.map_cons, List.zip_cons_cons, List.map_cons, objectAssignCar_eq,
      zip_map_assign f l]

lemma stage_eta (st : Stage) : Stage.mk st.name st.length st.laps = st := rfl

lemma loadGameState_saveGameState (g : RacingGame) (d : String) :
    loadGameState (saveGameState g d) = g := by
  cases g with
  | mk cars stages lb res idx =>
    simp only [loadGameState, saveGameState, RacingGame.resetForNewRace]
    rw [zip_map_assign]
    congr 1
    rw [show (fun st : Stage => Stage.mk st.name st.length st.laps) = id from
      funext fun st => rfl, List.map_id]

/-- Claim C9: save-then-load reproduces the cars (all attributes and race state),
the stages, the leaderboard, the stage results, and the stage cursor; and for
a mid-race state (currentStageIndex ≠ 0) a subsequent run simulates only the
remaining stages, appending exactly one record per stage from
currentStageIndex onward and none for already-completed stages. -/
theorem claim_C9 (g : RacingGame) (d : String) (ticks : ℕ → List (ℕ → ℝ))
    (h0 : g.currentStageIndex ≠ 0) :
    (loadGameState (saveGameState g d)).cars = g.cars ∧
    (loadGameState (saveGameState g d)).stages = g.stages ∧
    (loadGameState (saveGameState g d)).leaderboard = g.leaderboard ∧
    (loadGameState (saveGameState g d)).stageResults = g.stageResults ∧
    (loadGameState (saveGameState g d)).currentStageIndex = g.currentStageIndex ∧
    ∃ tail,
      (RacingGame.runRace ticks (loadGameState (saveGameState g d))).stageResults =
        g.stageResults ++ tail ∧
      tail.map StageRecord.stageName =
        (g.stages.drop g.currentStageIndex).map Stage.name := by
  rw [loadGameState_saveGameState g d]
  refine ⟨rfl, rfl, rfl, rfl, rfl, ?_⟩
  rw [RacingGame.runRace]
  simp only [if_neg h0]
  obtain ⟨tail, h1, h2⟩ := runLoop_results ticks
    (g.stages.length - g.currentStageIndex) g
  refine ⟨tail, h1, ?_⟩
  rw [h2, drop_map_name g.stages g.currentStageIndex]

def recW : StageRecord := { stageName := "S", winner := "Solo", finalStandings := [] }

def gW9 : RacingGame :=
  { cars := [soloW], stages := [stageW, stage4], leaderboard := [("Solo", 1)],
    stageResults := [recW], currentStageIndex := 1 }

theorem claim_C9_witness :
    (loadGameState (saveGameState gW9 "easy")).currentStageIndex =
      gW9.currentStageIndex :=
  (claim_C9 gW9 "easy" (fun _ => []) (by simp [gW9])).2.2.2.2.1

/-- Claim C5, amended: the overtake event fires on a tick if and only if a leader
exists after the tick, a previous leader existed, and the two differ; in
particular it never fires on the first tick of a stage, where the previous
leader is null. -/
theorem claim_C5 (stage : Stage) (rs : ℕ → ℝ) (s : StageState)
    (cars : List Car) (lb : List (String × ℕ)) :
    ((runTick stage rs s).overtake = true ↔
      ((runTick stage rs s).state.previousLeader.isSome = true ∧
       (runTick stage rs s).state.previousLeader ≠ s.previousLeader ∧
       s.previousLeader.isSome = true)) ∧
    (runTick stage rs (stageStart cars lb)).overtake = false := by
  constructor
  · simp only [runTick]
    split_ifs with h
    · simpa using h
    · simpa using h
  · simp [runTick, stageStart]

def stage5 : Stage := { name := "S5", length := 15, laps := 1 }

def c1W : Car :=
  { name := "Solo", speed := 36, handling := 2, color := "b", position := 10,
    currentLap := 1, damage := 0, tireWear := 99.994 }

def s1W : StageState :=
  { cars := [c1W], winner := none, leaderboard := [("Solo", 0)],
    previousLeader := some 0 }

/-- Claim C5 counterexample: in a concrete one-car stage, tick 1 computes leader 0
(stored as previousLeader); on tick 2 the car finishes, the computed leader
becomes null — the leader identity changes between consecutive ticks — yet no
overtake event fires, refuting the claimed "if and only if". -/
theorem claim_C5_counterexample :
    (runTick stage5 (fun _ => (0.5 : ℝ)) (stageStart [soloW] [("Solo", 0)])).state
      = s1W ∧
    s1W.previousLeader = some 0 ∧
    (runTick stage5 (fun _ => (0.5 : ℝ)) s1W).overtake = false ∧
    (runTick stage5 (fun _ => (0.5 : ℝ)) s1W).state.previousLeader = none := by
  refine ⟨?_, rfl, ?_, ?_⟩
  · norm_num [runTick, runCars, stageStart, withIdx, processCar, stepCar,
      damageTaken, baseDamage, speedDamageMultiplier, speedInMps, baseTireWear,
      distanceIncrement, damagePenalty, handlingFactor, effectiveHandling,
      tireGripFactor, Car.reset, soloW, stage5, c1W, s1W, leaderIdx, activeCars,
      sortByKeyDesc, insertByKeyDesc, progressKey, Real.one_rpow, jsMod,
      min_def, max_def]
  · norm_num [runTick, runCars, withIdx, processCar, stepCar,
      damageTaken, baseDamage, speedDamageMultiplier, speedInMps, baseTireWear,
      distanceIncrement, damagePenalty, handlingFactor, effectiveHandling,
      tireGripFactor, stage5, c1W, s1W, leaderIdx, activeCars,
      sortByKeyDesc, insertByKeyDesc, progressKey, Real.one_rpow, jsMod,
      min_def, max_def]
  · norm_num [runTick, runCars, withIdx, processCar, stepCar,
      damageTaken, baseDamage, speedDamageMultiplier, speedInMps, baseTireWear,
      distanceIncrement, damagePenalty, handlingFactor, effectiveHandling,
      tireGripFactor, stage5, c1W, s1W, leaderIdx, activeCars,
      sortByKeyDesc, insertByKeyDesc, progressKey, Real.one_rpow, jsMod,
      min_def, max_def]

/-- Claim C10, amended: every stage run to completion appends exactly one record to
stageResults — the stage name, the winner's name, and a standings snapshot of
all cars sorted ascending by damage rounded to one decimal place (the value
displayed by toFixed(1)) — previously appended records are preserved, and
currentStageIndex increases by exactly 1. -/
theorem claim_C10 (stage : Stage) (ticks : List (ℕ → ℝ)) (g : RacingGame)
    (hwin : (runTicks stage ticks (stageStart g.cars g.leaderboard)).winner.isSome
      = true) :
    (g.simulateStage stage ticks).stageResults = g.stageResults ++
      [{ stageName := stage.name,
         winner := winnerName (runTicks stage ticks (stageStart g.cars g.leaderboard)),
         finalStandings :=
           standings (runTicks stage ticks (stageStart g.cars g.leaderboard)).cars }] ∧
    (standings (runTicks stage ticks (stageStart g.cars g.leaderboard)).cars).Pairwise
      (fun a b => a.damage ≤ b.damage) ∧
    (standings (runTicks stage ticks (stageStart g.cars g.leaderboard)).cars).Perm
      ((runTicks stage ticks (stageStart g.cars g.leaderboard)).cars.map standingEntry) ∧
    (g.simulateStage stage ticks).currentStageIndex = g.currentStageIndex + 1 ∧
    (∃ i, (runTicks stage ticks (stageStart g.cars g.leaderboard)).winner = some i ∧
      winnerName (runTicks stage ticks (stageStart g.cars g.leaderboard)) =
        ((runTicks stage ticks (stageStart g.cars g.leaderboard)).cars.getD i
          defaultCar).name) := by
  refine ⟨rfl, standings_sorted _, standings_perm _, rfl, ?_⟩
  cases hwo : (runTicks stage ticks (stageStart g.cars g.leaderboard)).winner with
  | none =>
    rw [hwo] at hwin
    cases hwin
  | some i => exact ⟨i, rfl, by simp [winnerName, hwo]⟩

def gW : RacingGame :=
  { cars := [soloW], stages := [stageW], leaderboard := [("Solo", 0)],
    stageResults := [], currentStageIndex := 0 }

theorem claim_C10_witness :
    (gW.simulateStage stageW [fun _ => (0.5 : ℝ)]).currentStageIndex =
      gW.currentStageIndex + 1 :=
  (claim_C10 stageW [fun _ => (0.5 : ℝ)] gW (by
    norm_num [runTicks, runTick, runCars, stageStart, withIdx, processCar,
      stepCar, damageTaken, baseDamage, speedDamageMultiplier, speedInMps,
      baseTireWear, distanceIncrement, damagePenalty, handlingFactor,
      effectiveHandling, tireGripFactor, Car.reset, soloW, stageW, gW,
      Real.one_rpow, jsMod, min_def, max_def])).2.2.2.1

def carA : Car :=
  { name := "A", speed := 36, handling := 2, color := "r", position := 0,
    currentLap := 1, damage := 0, tireWear := 100 }

def carB : Car :=
  { name := "B", speed := 36, handling := 2, color := "g", position := 0,
    currentLap := 1, damage := 0, tireWear := 100 }

def stageCE : Stage := { name := "CE", length := 1, laps := 1 }

def gCE : RacingGame :=
  { cars := [carA, carB], stages := [stageCE], leaderboard := [("A", 0), ("B", 0)],
    stageResults := [], currentStageIndex := 0 }

def rsCE : ℕ → ℝ := fun i => if i = 0 then 0.51 else 0.505

/-- Claim C10 counterexample: in a concrete completed stage, the appended record
lists car A before car B in the standings although A's final damage exceeds
B's — their damages differ but round to the same displayed value, so the
standings are sorted by the rounded damage, not by the final damage. -/
theorem claim_C10_counterexample :
    ((gCE.simulateStage stageCE [rsCE]).stageResults.map
      (fun rec => rec.finalStandings.map StandingEntry.name)) = [["A", "B"]] ∧
    ((gCE.simulateStage stageCE [rsCE]).cars.getD 0 defaultCar).name = "A" ∧
    ((gCE.simulateStage stageCE [rsCE]).cars.getD 1 defaultCar).name = "B" ∧
    ((gCE.simulateStage stageCE [rsCE]).cars.getD 1 defaultCar).damage <
      ((gCE.simulateStage stageCE [rsCE]).cars.getD 0 defaultCar).damage := by
  refine ⟨?_, ?_, ?_, ?_⟩ <;>
    norm_num [RacingGame.simulateStage, runTicks, runTick, runCars, stageStart,
      withIdx, processCar, stepCar, damageTaken, baseDamage,
      speedDamageMultiplier, speedInMps, baseTireWear, distanceIncrement,
      damagePenalty, handlingFactor, effectiveHandling, tireGripFactor,
      Car.reset, carA, carB, stageCE, gCE, rsCE, leaderIdx, activeCars,
      sortByKeyDesc, insertByKeyDesc, progressKey, Real.one_rpow, jsMod,
      min_def, max_def, standings, standingEntry, insertStanding, round1,
      round_eq, winnerName, lbInc, Option.some_ne_none, abs_of_nonneg]

end Racing
